import Mathlib

/-
Shallow embedding of plantseg/segmentation/multicut.py (MulticutFromPmaps).

The repository code is the orchestration class MulticutFromPmaps; the
algorithmic stages it calls (distance_transform_watershed, compute_rag /
accumulateEdgeMeanAndLength, transform_probabilities_to_costs,
multicut_kernighan_lin, apply_size_filter) live in the external elf / nifty
libraries, whose sources are not part of this repository.  Those stages are
embedded either as explicit function parameters of the pipeline (watershed,
solver, size filter) constrained by the contracts the specification states
for them, or, where a claim is about the stage itself, as definitions
modelled from the specification text (marked in their doc comments).

Dense 3D arrays are nested lists with axes (z, y, x); probabilities are
rationals; machine floats are not modelled.
-/

namespace PlantSeg

abbrev Slice (α : Type) : Type := List (List α)
abbrev Vol (α : Type) : Type := List (List (List α))

def flat2 {α : Type} (s : Slice α) : List α := s.flatten

def flat3 {α : Type} (v : Vol α) : List α := v.flatten.flatten

def mapVol {α β : Type} (f : α → β) (v : Vol α) : Vol β :=
  v.map (List.map (List.map f))

/-- Maximum of a label slice, as in numpy _ws.max() (0 on an empty slice,
where numpy would raise instead; theorems assume nonempty slices). -/
def sliceMax (s : Slice Nat) : Nat := (flat2 s).foldr max 0

/-- Maximum label of a 3D label volume. -/
def volMaxLabel (v : Vol Nat) : Nat := (flat3 v).foldr max 0

/-- Minimum voxel value of a volume, as in numpy pmaps.min() on a nonempty
array. -/
def volMin (v : Vol ℚ) : ℚ := (flat3 v).foldr min ((flat3 v).headD 0)

/-- Maximum voxel value of a volume, as in numpy pmaps.max() on a nonempty
array. -/
def volMax (v : Vol ℚ) : ℚ := (flat3 v).foldr max ((flat3 v).headD 0)

/-- Configuration record: the fields stored by MulticutFromPmaps.__init__
(multicut.py lines 14-44).  predictions_paths is passed separately to the
batch runner. -/
structure MulticutConfig where
  save_directory : String
  beta : ℚ
  run_ws : Bool
  ws_2D : Bool
  ws_threshold : ℚ
  ws_minsize : ℤ
  ws_sigma : ℚ
  ws_w_sigma : ℚ
  post_minsize : ℤ
  n_threads : ℤ
  deriving DecidableEq, Repr

/-- MulticutFromPmaps.__init__ (multicut.py lines 14-44): it only stores the
given parameters on the object; there is no validation of any kind, so the
constructor is a total function into MulticutConfig. -/
def MulticutFromPmaps_init (save_directory : String) (beta : ℚ)
    (run_ws ws_2D : Bool) (ws_threshold : ℚ) (ws_minsize : ℤ)
    (ws_sigma ws_w_sigma : ℚ) (post_minsize n_threads : ℤ) : MulticutConfig :=
  { save_directory := save_directory, beta := beta, run_ws := run_ws,
    ws_2D := ws_2D, ws_threshold := ws_threshold, ws_minsize := ws_minsize,
    ws_sigma := ws_sigma, ws_w_sigma := ws_w_sigma,
    post_minsize := post_minsize, n_threads := n_threads }

/-- Signature of the external 2D distance_transform_watershed call
(multicut.py lines 156-160): arguments threshold, sigma, sigma_weights,
min_size, slice.  Only the label image (first tuple component) is used. -/
abbrev DtWs2 : Type := ℚ → ℚ → ℚ → ℤ → Slice ℚ → Slice Nat

/-- Signature of the external 3D distance_transform_watershed call
(multicut.py line 134): arguments threshold, sigma, min_size, volume. -/
abbrev DtWs3 : Type := ℚ → ℚ → ℤ → Vol ℚ → Vol Nat

/-- Elementwise shift of a label slice, the numpy expression _ws + max_idx
(multicut.py line 161). -/
def wsShift (s : Slice Nat) (off : Nat) : Slice Nat :=
  s.map (List.map (fun x => x + off))

/-- Loop body of MulticutFromPmaps.ws_dt_2D (multicut.py lines 152-164):
fold over the z slices threading max_idx; each slice watershed is shifted by
the running max_idx and max_idx becomes the maximum of the shifted slice. -/
def ws_dt_2D_go (dtws2 : DtWs2) (cfg : MulticutConfig) :
    Nat → Vol ℚ → Vol Nat
  | _, [] => []
  | maxIdx, p :: rest =>
    let w := wsShift
      (dtws2 cfg.ws_threshold cfg.ws_sigma cfg.ws_w_sigma cfg.ws_minsize p)
      maxIdx
    w :: ws_dt_2D_go dtws2 cfg (sliceMax w) rest

/-- MulticutFromPmaps.ws_dt_2D (multicut.py lines 150-164), with initial
max_idx = 1. -/
def ws_dt_2D (dtws2 : DtWs2) (cfg : MulticutConfig) (pmaps : Vol ℚ) :
    Vol Nat :=
  ws_dt_2D_go dtws2 cfg 1 pmaps

/-- One boundary contribution between two neighboring voxels: registered when
the two superpixel labels differ and are both nonzero, carrying the local
probability averaged over the pair (spec 4.2); the unordered edge is stored
as (min, max). -/
def pairContrib (a b : Nat × ℚ) : List ((Nat × Nat) × ℚ) :=
  if a.1 ≠ b.1 ∧ a.1 ≠ 0 ∧ b.1 ≠ 0 then
    [((min a.1 b.1, max a.1 b.1), (a.2 + b.2) / 2)]
  else []

/-- Contributions of two parallel label/probability rows (adjacent along y or
z), matched columnwise. -/
def colAdj (r1 r2 : List (Nat × ℚ)) : List ((Nat × Nat) × ℚ) :=
  (r1.zip r2).flatMap (fun ab => pairContrib ab.1 ab.2)

/-- Contributions of x-adjacent voxels inside one row. -/
def rowAdj (r : List (Nat × ℚ)) : List ((Nat × Nat) × ℚ) :=
  (r.zip r.tail).flatMap (fun ab => pairContrib ab.1 ab.2)

/-- Contributions of two z-adjacent slices, matched row- and columnwise. -/
def sliceAdj (s1 s2 : Slice (Nat × ℚ)) : List ((Nat × Nat) × ℚ) :=
  (s1.zip s2).flatMap (fun rr => colAdj rr.1 rr.2)

def zipSlice (w : Slice Nat) (p : Slice ℚ) : Slice (Nat × ℚ) :=
  List.zipWith List.zip w p

def zipVol (w : Vol Nat) (p : Vol ℚ) : Vol (Nat × ℚ) :=
  List.zipWith zipSlice w p

def xContribs (v : Vol (Nat × ℚ)) : List ((Nat × Nat) × ℚ) :=
  v.flatten.flatMap rowAdj

def yContribs (v : Vol (Nat × ℚ)) : List ((Nat × Nat) × ℚ) :=
  v.flatMap (fun s => (s.zip s.tail).flatMap (fun rr => colAdj rr.1 rr.2))

def zContribs (v : Vol (Nat × ℚ)) : List ((Nat × Nat) × ℚ) :=
  (v.zip v.tail).flatMap (fun ss => sliceAdj ss.1 ss.2)

/-- Modelled from the spec: the boundary scan of the external RAG builder
(compute_rag + nrag.accumulateEdgeMeanAndLength, multicut.py lines 136-140).
Spec 4.2: scan all voxel pairs across the three axis-aligned directions and
register a contribution whenever two neighboring voxels carry different
non-zero superpixel labels. -/
def contributions (ws : Vol Nat) (pmaps : Vol ℚ) :
    List ((Nat × Nat) × ℚ) :=
  let v := zipVol ws pmaps
  xContribs v ++ yContribs v ++ zContribs v

/-- Edge set of the region adjacency graph: the distinct unordered label
pairs occurring among the contributions (rag.uvIds()). -/
def ragEdges (contribs : List ((Nat × Nat) × ℚ)) : List (Nat × Nat) :=
  (contribs.map Prod.fst).dedup

/-- Modelled from the spec: per-edge aggregated features (meanProbability,
boundaryLength) of nrag.accumulateEdgeMeanAndLength, as the streaming mean
and count of the contributions of that edge (spec 4.2). -/
def edgeFeature (contribs : List ((Nat × Nat) × ℚ)) (e : Nat × Nat) :
    ℚ × Nat :=
  let ps := (contribs.filter (fun c => decide (c.1 = e))).map Prod.snd
  (ps.sum / (ps.length : ℚ), ps.length)

/-- nifty.tools.take(node_labels, ws) (multicut.py line 148): every voxel is
replaced by the node label of its superpixel id. -/
def niftyTake (node_labels : List Nat) (ws : Vol Nat) : Vol Nat :=
  mapVol (fun v => node_labels.getD v 0) ws

/-- Watershed stage of MulticutFromPmaps.segment_volume (multicut.py lines
131-134): slice-by-slice watershed when ws_2D else one 3D watershed. -/
def wsOf (dtws3 : DtWs3) (dtws2 : DtWs2) (cfg : MulticutConfig)
    (pmaps : Vol ℚ) : Vol Nat :=
  if cfg.ws_2D then ws_dt_2D dtws2 cfg pmaps
  else dtws3 cfg.ws_threshold cfg.ws_sigma cfg.ws_minsize pmaps

/-- Edge list handed to the multicut graph (multicut.py lines 136-145). -/
def edgesOf (dtws3 : DtWs3) (dtws2 : DtWs2) (cfg : MulticutConfig)
    (pmaps : Vol ℚ) : List (Nat × Nat) :=
  ragEdges (contributions (wsOf dtws3 dtws2 cfg pmaps) pmaps)

/-- Edge costs handed to the solver (multicut.py line 142): the external cost
transform applied to every per-edge (meanProbability, boundaryLength) pair
with bias beta.  The scalar cost type is a parameter. -/
def costsOf {γ : Type} (dtws3 : DtWs3) (dtws2 : DtWs2)
    (transform : ℚ → Nat → ℚ → γ) (cfg : MulticutConfig) (pmaps : Vol ℚ) :
    List γ :=
  let contribs := contributions (wsOf dtws3 dtws2 cfg pmaps) pmaps
  (edgesOf dtws3 dtws2 cfg pmaps).map
    (fun e => let f := edgeFeature contribs e; transform f.1 f.2 cfg.beta)

/-- Node labeling returned by the external multicut_kernighan_lin call
(multicut.py line 147) on the graph with rag.numberOfNodes = max label + 1
nodes (nifty node ids are 0-based). -/
def labelsOf {γ : Type} (dtws3 : DtWs3) (dtws2 : DtWs2)
    (transform : ℚ → Nat → ℚ → γ)
    (solver : Nat → List (Nat × Nat) → List γ → List Nat)
    (cfg : MulticutConfig) (pmaps : Vol ℚ) : List Nat :=
  solver (volMaxLabel (wsOf dtws3 dtws2 cfg pmaps) + 1)
    (edgesOf dtws3 dtws2 cfg pmaps)
    (costsOf dtws3 dtws2 transform cfg pmaps)

/-- MulticutFromPmaps.segment_volume (multicut.py lines 129-148): watershed,
RAG features, costs, multicut, and projection of the node labels back onto
the voxels.  No relabeling happens after the projection. -/
def segment_volume {γ : Type} (dtws3 : DtWs3) (dtws2 : DtWs2)
    (transform : ℚ → Nat → ℚ → γ)
    (solver : Nat → List (Nat × Nat) → List γ → List Nat)
    (cfg : MulticutConfig) (pmaps : Vol ℚ) : Vol Nat :=
  niftyTake (labelsOf dtws3 dtws2 transform solver cfg pmaps)
    (wsOf dtws3 dtws2 cfg pmaps)

/-- Post stage of MulticutFromPmaps.__call__ (multicut.py lines 95-96): the
external apply_size_filter runs only when post_minsize > ws_minsize. -/
def finalSegOf {γ : Type} (dtws3 : DtWs3) (dtws2 : DtWs2)
    (transform : ℚ → Nat → ℚ → γ)
    (solver : Nat → List (Nat × Nat) → List γ → List Nat)
    (filterFn : Vol Nat → Vol ℚ → ℤ → Vol Nat)
    (cfg : MulticutConfig) (pmaps : Vol ℚ) : Vol Nat :=
  let seg := segment_volume dtws3 dtws2 transform solver cfg pmaps
  if cfg.ws_minsize < cfg.post_minsize then
    filterFn seg pmaps cfg.post_minsize
  else seg

/-- Cast performed when writing the output dataset (multicut.py line 114):
segmentation.astype(np.uint16) wraps every voxel modulo 2 ^ 16. -/
def storeSegmentation (seg : Vol Nat) : Vol Nat :=
  mapVol (fun v => v % 65536) seg

/-- Exceptions raised while loading one volume in MulticutFromPmaps.__call__
(multicut.py lines 51-90). -/
inductive PErr where
  | notImplemented
  | assertionError
  | indexError
  deriving DecidableEq, Repr

/-- Dimensionality cases of a stored input array, as distinguished by the
loader: exactly 3D, 4D (list of 3D channels), or any other rank (carrying
only the rank, since such data never reaches the pipeline). -/
inductive Stored where
  | three (v : Vol ℚ)
  | four (channels : List (Vol ℚ))
  | other (n : Nat)
  deriving DecidableEq

/-- One prediction file as the loader sees it: a tiff file, an hdf5 file with
flags for the presence of the predictions and raw datasets, or a file with an
extension the loader does not understand. -/
inductive InputFile where
  | tiff (data : Stored)
  | h5 (hasPredictions hasRaw : Bool) (data : Stored)
  | unknownExt
  deriving DecidableEq

/-- Rank of the decoded array after caller-side channel handling: a 4D array
has its first channel taken (rank 3), other ranks are unchanged; a file with
an unknown extension decodes to nothing (rank 0). -/
def ndimHandled : InputFile → Nat
  | InputFile.tiff (Stored.three _) => 3
  | InputFile.tiff (Stored.four _) => 3
  | InputFile.tiff (Stored.other n) => n
  | InputFile.h5 _ _ (Stored.three _) => 3
  | InputFile.h5 _ _ (Stored.four _) => 3
  | InputFile.h5 _ _ (Stored.other n) => n
  | InputFile.unknownExt => 0

/-- Min-max normalization applied to tiff inputs (multicut.py line 60):
(pmaps - pmaps.min()) / (pmaps.max() - pmaps.min()); the division is not
guarded against a zero denominator. -/
def minMaxNormalize (v : Vol ℚ) : Vol ℚ :=
  mapVol (fun x => (x - volMin v) / (volMax v - volMin v)) v

/-- Loading branch of MulticutFromPmaps.__call__ (multicut.py lines 51-90):
tiff files are read, 4D data has its first channel taken, values are min-max
normalized; hdf5 files need a predictions or raw dataset and are read without
normalization, 4D data has its first channel taken; other extensions and
other ranks raise; finally the assert on line 88 rejects anything not 3D. -/
def decodeInput : InputFile → Except PErr (Vol ℚ)
  | InputFile.tiff (Stored.three v) => Except.ok (minMaxNormalize v)
  | InputFile.tiff (Stored.four []) => Except.error PErr.indexError
  | InputFile.tiff (Stored.four (c :: _)) => Except.ok (minMaxNormalize c)
  | InputFile.tiff (Stored.other _) => Except.error PErr.assertionError
  | InputFile.h5 hasPredictions hasRaw d =>
    if hasPredictions || hasRaw then
      match d with
      | Stored.three v => Except.ok v
      | Stored.four [] => Except.error PErr.indexError
      | Stored.four (c :: _) => Except.ok c
      | Stored.other _ => Except.error PErr.notImplemented
    else Except.error PErr.notImplemented
  | InputFile.unknownExt => Except.error PErr.notImplemented

/-- Processing of a single volume inside the loop of
MulticutFromPmaps.__call__ (multicut.py lines 49-116): load, segment, size
filter, uint16 cast.  An error while loading aborts this volume with no
output. -/
def processOne {γ : Type} (dtws3 : DtWs3) (dtws2 : DtWs2)
    (transform : ℚ → Nat → ℚ → γ)
    (solver : Nat → List (Nat × Nat) → List γ → List Nat)
    (filterFn : Vol Nat → Vol ℚ → ℤ → Vol Nat)
    (cfg : MulticutConfig) (input : InputFile) : Except PErr (Vol Nat) :=
  (decodeInput input).map
    (fun pmaps =>
      storeSegmentation
        (finalSegOf dtws3 dtws2 transform solver filterFn cfg pmaps))

/-- Output path of one volume (multicut.py lines 100-107):
dirname / save_directory / stem + _multicut.h5. -/
def outPathOf (cfg : MulticutConfig) (dir stem : String) : String :=
  dir ++ "/" ++ cfg.save_directory ++ "/" ++ stem ++ "_multicut.h5"

/-- The file system as a write log of produced segmentation outputs. -/
abbrev FS : Type := List (String × Vol Nat)

/-- The batch loop of MulticutFromPmaps.__call__ (multicut.py line 49): each
prediction file (dir, stem, contents) is processed and its output written
under its own derived path; an exception aborts the whole loop, leaving the
outputs written so far untouched. -/
def runBatch {γ : Type} (dtws3 : DtWs3) (dtws2 : DtWs2)
    (transform : ℚ → Nat → ℚ → γ)
    (solver : Nat → List (Nat × Nat) → List γ → List Nat)
    (filterFn : Vol Nat → Vol ℚ → ℤ → Vol Nat)
    (cfg : MulticutConfig) :
    List (String × String × InputFile) → FS → FS × Option PErr
  | [], fs => (fs, none)
  | item :: rest, fs =>
    match processOne dtws3 dtws2 transform solver filterFn cfg item.2.2 with
    | Except.error e => (fs, some e)
    | Except.ok out =>
      runBatch dtws3 dtws2 transform solver filterFn cfg rest
        ((outPathOf cfg item.1 item.2.1, out) :: fs)

/-- Modelled from the spec: the external
elf transform_probabilities_to_costs (multicut.py line 142), whose source is
not in this repository.  Spec 4.3: a log-odds-style cost that is 0 at
meanProbability = beta, positive above, negative below, with magnitude
scaled by boundaryLength. -/
noncomputable def transform_probabilities_to_costs (p : ℚ) (size : Nat)
    (beta : ℚ) : ℝ :=
  (size : ℝ) *
    (Real.log ((p : ℝ) / (1 - (p : ℝ))) -
      Real.log ((beta : ℝ) / (1 - (beta : ℝ))))

/-- Modelled from the spec: the multicut objective minimized by the external
solver (spec 4.4 and glossary): the sum, over edges whose endpoints receive
different labels, of that edge cost. -/
noncomputable def multicutObjective (edges : List (Nat × Nat))
    (costs : List ℝ) (lab : Nat → Nat) : ℝ :=
  ((edges.zip costs).map
    (fun ec => if lab ec.1.1 = lab ec.1.2 then 0 else ec.2)).sum

/-- Modelled from the spec: the contract of multicut_kernighan_lin, read as
returning a node labeling whose multicut objective is minimal. -/
def MinimizesMulticut (edges : List (Nat × Nat)) (costs : List ℝ)
    (node_labels : List Nat) : Prop :=
  ∀ lab : Nat → Nat,
    multicutObjective edges costs (fun v => node_labels.getD v 0) ≤
      multicutObjective edges costs lab

/- Concrete instances of the external stages, used by counterexamples and
witnesses. -/

/-- A 3D watershed assigning one region (label 1) to the whole volume. -/
def dtws3C : DtWs3 := fun _ _ _ p => mapVol (fun _ => 1) p

/-- A 2D watershed assigning one region (label 1) to the whole slice. -/
def dtws2C : DtWs2 := fun _ _ _ _ s => s.map (List.map (fun _ => 1))

/-- A size filter that changes nothing. -/
def filterC : Vol Nat → Vol ℚ → ℤ → Vol Nat := fun s _ _ => s

/-- A trivial cost transform into Unit, for witnesses that never look at
costs. -/
def transformU : ℚ → Nat → ℚ → Unit := fun _ _ _ => ()

/-- A solver stand-in labeling every node 5. -/
def solverU : Nat → List (Nat × Nat) → List Unit → List Nat :=
  fun n _ _ => List.replicate n 5

/-- A solver stand-in returning the all-zero labeling on four nodes, the
all-merged partition with the 0-based label nifty uses. -/
def solver0R : Nat → List (Nat × Nat) → List ℝ → List Nat :=
  fun _ _ _ => [0, 0, 0, 0]

/-- The default configuration of MulticutFromPmaps.__init__. -/
def cfgC : MulticutConfig :=
  MulticutFromPmaps_init "MultiCut" (1/2) true true (1/2) 50 2 0 50 6

/-- A configuration with ws_minsize = -1 and beta = 2, both outside the
domains the spec states; __init__ accepts it unchanged. -/
def cfgBad : MulticutConfig :=
  MulticutFromPmaps_init "MultiCut" 2 true true (1/2) (-1) 2 0 50 6

/-- A single-voxel probability volume. -/
def pmaps1 : Vol ℚ := [[[1/2]]]

/-- A two-slice, one-voxel-per-slice probability volume, constant 1/2. -/
def pmaps2 : Vol ℚ := [[[1/2]], [[1/2]]]

/-- A three-slice, one-voxel-per-slice probability volume, constant 1/2. -/
def pmaps3 : Vol ℚ := [[[1/2]], [[1/2]], [[1/2]]]

/-- A well-formed hdf5 input holding pmaps1 in a predictions dataset. -/
def inputH5a : InputFile := InputFile.h5 true false (Stored.three pmaps1)

/- Helper lemmas. -/

theorem flat3_mapVol {α β : Type} (f : α → β) (v : Vol α) :
    flat3 (mapVol f v) = (flat3 v).map f := by
  simp [flat3, mapVol, List.map_flatten]

theorem flat2_map {α β : Type} (f : α → β) (s : Slice α) :
    flat2 (s.map (List.map f)) = (flat2 s).map f := by
  simp [flat2, List.map_flatten]

theorem le_foldr_max (x : Nat) (l : List Nat) (h : x ∈ l) :
    x ≤ l.foldr max 0 := by
  induction l with
  | nil => cases h
  | cons a t ih =>
    rcases List.mem_cons.mp h with rfl | ht
    · exact le_max_left _ _
    · exact le_trans (ih ht) (le_max_right _ _)

theorem foldr_min_const (l : List ℚ) (c : ℚ) (h : ∀ x ∈ l, x = c) :
    l.foldr min c = c := by
  induction l with
  | nil => rfl
  | cons a t ih =>
    rw [List.foldr_cons, ih (fun x hx => h x (List.mem_cons_of_mem a hx)),
      h a (List.mem_cons_self a t), min_self]

theorem foldr_max_const (l : List ℚ) (c : ℚ) (h : ∀ x ∈ l, x = c) :
    l.foldr max c = c := by
  induction l with
  | nil => rfl
  | cons a t ih =>
    rw [List.foldr_cons, ih (fun x hx => h x (List.mem_cons_of_mem a hx)),
      h a (List.mem_cons_self a t), max_self]

theorem volMin_const (v : Vol ℚ) (c : ℚ) (hne : flat3 v ≠ [])
    (h : ∀ x ∈ flat3 v, x = c) : volMin v = c := by
  unfold volMin
  cases hl : flat3 v with
  | nil => exact absurd hl hne
  | cons a t =>
    have ha : a = c := h a (by rw [hl]; exact List.mem_cons_self a t)
    rw [List.headD_cons, ha]
    refine foldr_min_const _ _ (fun x hx => ?_)
    rcases List.mem_cons.mp hx with rfl | hxt
    · rfl
    · exact h x (by rw [hl]; exact List.mem_cons_of_mem a hxt)

theorem volMax_const (v : Vol ℚ) (c : ℚ) (hne : flat3 v ≠ [])
    (h : ∀ x ∈ flat3 v, x = c) : volMax v = c := by
  unfold volMax
  cases hl : flat3 v with
  | nil => exact absurd hl hne
  | cons a t =>
    have ha : a = c := h a (by rw [hl]; exact List.mem_cons_self a t)
    rw [List.headD_cons, ha]
    refine foldr_max_const _ _ (fun x hx => ?_)
    rcases List.mem_cons.mp hx with rfl | hxt
    · rfl
    · exact h x (by rw [hl]; exact List.mem_cons_of_mem a hxt)

/-- C3: for every input volume and every configuration with
post_minsize ≤ ws_minsize, the Final Segmentation is identical to what
segment_volume alone produces: the guard on multicut.py line 95 skips the
size-filter call entirely, whatever the external apply_size_filter would
compute. -/
theorem size_filter_skipped_of_le {γ : Type} (dtws3 : DtWs3) (dtws2 : DtWs2)
    (transform : ℚ → Nat → ℚ → γ)
    (solver : Nat → List (Nat × Nat) → List γ → List Nat)
    (filterFn : Vol Nat → Vol ℚ → ℤ → Vol Nat)
    (cfg : MulticutConfig) (pmaps : Vol ℚ)
    (h : cfg.post_minsize ≤ cfg.ws_minsize) :
    finalSegOf dtws3 dtws2 transform solver filterFn cfg pmaps =
      segment_volume dtws3 dtws2 transform solver cfg pmaps := by
  unfold finalSegOf
  rw [if_neg (not_lt.mpr h)]

/-- Witness for C3 at the default configuration (post_minsize = ws_minsize
= 50) on a concrete volume. -/
theorem size_filter_skipped_witness :
    cfgC.post_minsize ≤ cfgC.ws_minsize ∧
    finalSegOf dtws3C dtws2C transformU solverU filterC cfgC pmaps1 =
      segment_volume dtws3C dtws2C transformU solverU cfgC pmaps1 :=
  ⟨by decide,
    size_filter_skipped_of_le dtws3C dtws2C transformU solverU filterC cfgC
      pmaps1 (by decide)⟩

/-- C7: every input whose decoded array is not exactly 3-dimensional after
channel handling (4D data has its first channel taken) fails with an error
and yields no segmentation output for that volume. -/
theorem bad_ndim_rejected {γ : Type} (dtws3 : DtWs3) (dtws2 : DtWs2)
    (transform : ℚ → Nat → ℚ → γ)
    (solver : Nat → List (Nat × Nat) → List γ → List Nat)
    (filterFn : Vol Nat → Vol ℚ → ℤ → Vol Nat)
    (cfg : MulticutConfig) (input : InputFile)
    (h : ndimHandled input ≠ 3) :
    ∃ e, processOne dtws3 dtws2 transform solver filterFn cfg input =
      Except.error e := by
  cases input with
  | tiff d =>
    cases d with
    | three v => exact absurd rfl h
    | four cs => exact absurd rfl h
    | other n => exact ⟨PErr.assertionError, rfl⟩
  | h5 hasPredictions hasRaw d =>
    cases d with
    | three v => exact absurd rfl h
    | four cs => exact absurd rfl h
    | other n =>
      refine ⟨PErr.notImplemented, ?_⟩
      cases hasPredictions <;> cases hasRaw <;> rfl
  | unknownExt => exact ⟨PErr.notImplemented, rfl⟩

/-- Witness for C7: a 2-dimensional tiff input is rejected. -/
theorem bad_ndim_rejected_witness :
    ndimHandled (InputFile.tiff (Stored.other 2)) ≠ 3 ∧
    ∃ e, processOne dtws3C dtws2C transformU solverU filterC cfgC
        (InputFile.tiff (Stored.other 2)) = Except.error e :=
  ⟨by decide,
    bad_ndim_rejected dtws3C dtws2C transformU solverU filterC cfgC
      (InputFile.tiff (Stored.other 2)) (by decide)⟩

/-- C10: tiff inputs are min-max normalized while hdf5 inputs pass through
unchanged, and the normalization is unguarded: on a constant tiff volume the
divisor pmaps.max() - pmaps.min() is 0, yet the loader still returns the
divided values instead of rejecting the input. -/
theorem tiff_minmax_unguarded (v : Vol ℚ) (c : ℚ) (hne : flat3 v ≠ [])
    (hc : ∀ x ∈ flat3 v, x = c) :
    volMax v - volMin v = 0 ∧
    minMaxNormalize v = mapVol (fun x => (x - volMin v) / 0) v ∧
    decodeInput (InputFile.tiff (Stored.three v)) =
      Except.ok (minMaxNormalize v) ∧
    decodeInput (InputFile.h5 true false (Stored.three v)) = Except.ok v := by
  have h0 : volMax v - volMin v = 0 := by
    rw [volMax_const v c hne hc, volMin_const v c hne hc, sub_self]
  refine ⟨h0, ?_, rfl, rfl⟩
  unfold minMaxNormalize
  rw [h0]

/-- Witness for C10 on the constant volume [[[3, 3]]]. -/
theorem tiff_minmax_unguarded_witness :
    (flat3 ([[[3, 3]]] : Vol ℚ) ≠ [] ∧ ∀ x ∈ flat3 ([[[3, 3]]] : Vol ℚ),
      x = 3) ∧
    volMax ([[[3, 3]]] : Vol ℚ) - volMin ([[[3, 3]]] : Vol ℚ) = 0 ∧
    decodeInput (InputFile.tiff (Stored.three [[[3, 3]]])) =
      Except.ok (minMaxNormalize [[[3, 3]]]) :=
  ⟨⟨by decide, by decide⟩,
    (tiff_minmax_unguarded [[[3, 3]]] 3 (by decide) (by decide)).1,
    (tiff_minmax_unguarded [[[3, 3]]] 3 (by decide) (by decide)).2.2.1⟩

/-- C2 counterexample: a configuration with ws_minsize = -1 and beta = 2,
both outside the domains the spec states, is accepted by __init__ and the
pipeline still processes an input volume to a successful result instead of
rejecting it before any computation. -/
theorem no_config_validation_counterexample :
    (cfgBad.ws_minsize < 0 ∧ 1 ≤ cfgBad.beta) ∧
    processOne dtws3C dtws2C transformU solverU filterC cfgBad inputH5a =
      Except.ok [[[5]]] :=
  ⟨⟨by decide, by decide⟩, by rfl⟩

/-- C2 amended: the pipeline performs no validation of configuration
parameters at all; every input that decodes successfully is segmented and
stored, for every configuration, in or out of its stated domain. -/
theorem config_unchecked_processing {γ : Type} (dtws3 : DtWs3)
    (dtws2 : DtWs2) (transform : ℚ → Nat → ℚ → γ)
    (solver : Nat → List (Nat × Nat) → List γ → List Nat)
    (filterFn : Vol Nat → Vol ℚ → ℤ → Vol Nat)
    (cfg : MulticutConfig) (input : InputFile) (pmaps : Vol ℚ)
    (h : decodeInput input = Except.ok pmaps) :
    processOne dtws3 dtws2 transform solver filterFn cfg input =
      Except.ok (storeSegmentation
        (finalSegOf dtws3 dtws2 transform solver filterFn cfg pmaps)) := by
  unfold processOne
  rw [h]
  rfl

/-- Witness for C2 amended, at the out-of-domain configuration cfgBad. -/
theorem config_unchecked_processing_witness :
    decodeInput inputH5a = Except.ok pmaps1 ∧
    processOne dtws3C dtws2C transformU solverU filterC cfgBad inputH5a =
      Except.ok (storeSegmentation
        (finalSegOf dtws3C dtws2C transformU solverU filterC cfgBad
          pmaps1)) :=
  ⟨by rfl,
    config_unchecked_processing dtws3C dtws2C transformU solverU filterC
      cfgBad inputH5a pmaps1 (by rfl)⟩

/-- C9 counterexample: the bound in the claim is off by one.  The
segmentation holding each of the 65536 labels 0..65535 once has more than
65535 distinct labels, yet the uint16 cast stores it without any collision
(it is even the identity on this array). -/
theorem uint16_store_boundary_counterexample :
    65535 < (flat3 ([[List.range 65536]] : Vol Nat)).toFinset.card ∧
    storeSegmentation ([[List.range 65536]] : Vol Nat) =
      ([[List.range 65536]] : Vol Nat) ∧
    ¬ ∃ a ∈ flat3 ([[List.range 65536]] : Vol Nat),
        ∃ b ∈ flat3 ([[List.range 65536]] : Vol Nat),
          a ≠ b ∧ a % 65536 = b % 65536 := by
  have hf : flat3 ([[List.range 65536]] : Vol Nat) = List.range 65536 := by
    simp [flat3]
  refine ⟨?_, ?_, ?_⟩
  · rw [hf, List.toFinset_card_of_nodup (List.nodup_range _),
      List.length_range]
    norm_num
  · unfold storeSegmentation mapVol
    simp only [List.map_cons, List.map_nil]
    have h1 : (List.range 65536).map (fun v => v % 65536) =
        (List.range 65536).map id :=
      List.map_congr_left (fun a ha =>
        Nat.mod_eq_of_lt (List.mem_range.mp ha))
    rw [h1, List.map_id]
  · rintro ⟨a, ha, b, hb, hne, he⟩
    rw [hf] at ha hb
    rw [Nat.mod_eq_of_lt (List.mem_range.mp ha),
      Nat.mod_eq_of_lt (List.mem_range.mp hb)] at he
    exact hne he

/-- C9 amended: every stored voxel is the computed label modulo 2 ^ 16, and
any segmentation with more than 65536 distinct labels (not 65535: with
exactly 65536 distinct labels the cast can be injective) has two distinct
labels that collide in the stored output. -/
theorem uint16_store_mod_and_collision (seg : Vol Nat) :
    flat3 (storeSegmentation seg) = (flat3 seg).map (fun v => v % 65536) ∧
    (65536 < (flat3 seg).toFinset.card →
      ∃ a ∈ flat3 seg, ∃ b ∈ flat3 seg,
        a ≠ b ∧ a % 65536 = b % 65536) := by
  constructor
  · exact flat3_mapVol _ _
  · intro hcard
    have hmaps : ∀ a ∈ (flat3 seg).toFinset,
        a % 65536 ∈ Finset.range 65536 := by
      intro a _
      exact Finset.mem_range.mpr (Nat.mod_lt _ (by norm_num))
    have hlt : (Finset.range 65536).card < (flat3 seg).toFinset.card := by
      rwa [Finset.card_range]
    obtain ⟨a, ha, b, hb, hne, he⟩ :=
      Finset.exists_ne_map_eq_of_card_lt_of_maps_to hlt hmaps
    exact ⟨a, List.mem_toFinset.mp ha, b, List.mem_toFinset.mp hb, hne, he⟩

/-- Witness for C9 amended on a segmentation with 65537 distinct labels. -/
theorem uint16_store_mod_and_collision_witness :
    65536 < (flat3 ([[List.range 65537]] : Vol Nat)).toFinset.card ∧
    ∃ a ∈ flat3 ([[List.range 65537]] : Vol Nat),
      ∃ b ∈ flat3 ([[List.range 65537]] : Vol Nat),
        a ≠ b ∧ a % 65536 = b % 65536 := by
  have hf : flat3 ([[List.range 65537]] : Vol Nat) = List.range 65537 := by
    simp [flat3]
  have hcard : 65536 < (flat3 ([[List.range 65537]] : Vol Nat)).toFinset.card := by
    rw [hf, List.toFinset_card_of_nodup (List.nodup_range _),
      List.length_range]
    norm_num
  exact ⟨hcard, (uint16_store_mod_and_collision _).2 hcard⟩

theorem ws_go_labels_gt (dtws2 : DtWs2) (cfg : MulticutConfig) :
    ∀ (ps : Vol ℚ) (m : Nat),
      (∀ s ∈ ps, ∀ x ∈ flat2 (dtws2 cfg.ws_threshold cfg.ws_sigma
        cfg.ws_w_sigma cfg.ws_minsize s), 1 ≤ x) →
      (∀ s ∈ ps, flat2 (dtws2 cfg.ws_threshold cfg.ws_sigma
        cfg.ws_w_sigma cfg.ws_minsize s) ≠ []) →
      ∀ t ∈ ws_dt_2D_go dtws2 cfg m ps, ∀ a ∈ flat2 t, m < a := by
  intro ps
  induction ps with
  | nil => intro m _ _ t ht; cases ht
  | cons p rest ih =>
    intro m h1 h2 t ht a ha
    simp only [ws_dt_2D_go] at ht
    rcases List.mem_cons.mp ht with rfl | htr
    · unfold wsShift at ha
      rw [flat2_map] at ha
      obtain ⟨x, hx, rfl⟩ := List.mem_map.mp ha
      have hx1 := h1 p (List.mem_cons_self p rest) x hx
      omega
    · have hlater := ih (sliceMax (wsShift (dtws2 cfg.ws_threshold
        cfg.ws_sigma cfg.ws_w_sigma cfg.ws_minsize p) m))
        (fun s hs => h1 s (List.mem_cons_of_mem p hs))
        (fun s hs => h2 s (List.mem_cons_of_mem p hs)) t htr a ha
      have hne := h2 p (List.mem_cons_self p rest)
      obtain ⟨y, hy⟩ := List.exists_mem_of_ne_nil _ hne
      have hy1 := h1 p (List.mem_cons_self p rest) y hy
      have hyw : y + m ∈ flat2 (wsShift (dtws2 cfg.ws_threshold cfg.ws_sigma
          cfg.ws_w_sigma cfg.ws_minsize p) m) := by
        unfold wsShift
        rw [flat2_map]
        exact List.mem_map_of_mem _ hy
      have hle : y + m ≤ sliceMax (wsShift (dtws2 cfg.ws_threshold
          cfg.ws_sigma cfg.ws_w_sigma cfg.ws_minsize p) m) :=
        le_foldr_max _ _ hyw
      omega

theorem ws_go_pairwise (dtws2 : DtWs2) (cfg : MulticutConfig) :
    ∀ (ps : Vol ℚ) (m : Nat),
      (∀ s ∈ ps, ∀ x ∈ flat2 (dtws2 cfg.ws_threshold cfg.ws_sigma
        cfg.ws_w_sigma cfg.ws_minsize s), 1 ≤ x) →
      (∀ s ∈ ps, flat2 (dtws2 cfg.ws_threshold cfg.ws_sigma
        cfg.ws_w_sigma cfg.ws_minsize s) ≠ []) →
      List.Pairwise (fun s t => ∀ a ∈ flat2 s, ∀ b ∈ flat2 t, a < b)
        (ws_dt_2D_go dtws2 cfg m ps) := by
  intro ps
  induction ps with
  | nil => intro m _ _; simp [ws_dt_2D_go]
  | cons p rest ih =>
    intro m h1 h2
    simp only [ws_dt_2D_go]
    refine List.Pairwise.cons ?_
      (ih _ (fun s hs => h1 s (List.mem_cons_of_mem p hs))
        (fun s hs => h2 s (List.mem_cons_of_mem p hs)))
    intro t ht a ha b hb
    have hb2 := ws_go_labels_gt dtws2 cfg rest
      (sliceMax (wsShift (dtws2 cfg.ws_threshold cfg.ws_sigma
        cfg.ws_w_sigma cfg.ws_minsize p) m))
      (fun s hs => h1 s (List.mem_cons_of_mem p hs))
      (fun s hs => h2 s (List.mem_cons_of_mem p hs)) t ht b hb
    have ha2 : a ≤ sliceMax (wsShift (dtws2 cfg.ws_threshold cfg.ws_sigma
        cfg.ws_w_sigma cfg.ws_minsize p) m) := le_foldr_max _ _ ha
    omega

/-- C4: in slice-by-slice mode, label sets of distinct z slices are
disjoint; every label of a later slice is strictly larger than every label
of an earlier slice, because each new slice is shifted by the running
max_idx.  Hypotheses: the per-slice watershed (external, spec 4.1) emits
labels ≥ 1 and a nonempty label image for every processed slice. -/
theorem slice_labels_strictly_increasing (dtws2 : DtWs2)
    (cfg : MulticutConfig) (pmaps : Vol ℚ)
    (h1 : ∀ s ∈ pmaps, ∀ x ∈ flat2 (dtws2 cfg.ws_threshold cfg.ws_sigma
      cfg.ws_w_sigma cfg.ws_minsize s), 1 ≤ x)
    (h2 : ∀ s ∈ pmaps, flat2 (dtws2 cfg.ws_threshold cfg.ws_sigma
      cfg.ws_w_sigma cfg.ws_minsize s) ≠ []) :
    List.Pairwise (fun s t => ∀ a ∈ flat2 s, ∀ b ∈ flat2 t, a < b)
      (ws_dt_2D dtws2 cfg pmaps) :=
  ws_go_pairwise dtws2 cfg pmaps 1 h1 h2

/-- Witness for C4 on a concrete two-slice volume. -/
theorem slice_labels_strictly_increasing_witness :
    (∀ s ∈ pmaps2, ∀ x ∈ flat2 (dtws2C cfgC.ws_threshold cfgC.ws_sigma
      cfgC.ws_w_sigma cfgC.ws_minsize s), 1 ≤ x) ∧
    List.Pairwise (fun s t => ∀ a ∈ flat2 s, ∀ b ∈ flat2 t, a < b)
      (ws_dt_2D dtws2C cfgC pmaps2) :=
  ⟨by decide,
    slice_labels_strictly_increasing dtws2C cfgC pmaps2 (by decide)
      (by decide)⟩

/-- C6: for fixed input and configuration the pipeline is a deterministic
function: two runs that both succeed return equal arrays, and the edge
features it aggregates are invariant under any reordering of the boundary
scan (the accumulation is commutative), which is what fixing
numberOfThreads = 1 relies on. -/
theorem segment_volume_deterministic {γ : Type} (dtws3 : DtWs3)
    (dtws2 : DtWs2) (transform : ℚ → Nat → ℚ → γ)
    (solver : Nat → List (Nat × Nat) → List γ → List Nat)
    (filterFn : Vol Nat → Vol ℚ → ℤ → Vol Nat)
    (cfg : MulticutConfig) (input : InputFile) :
    (∀ out1 out2,
      processOne dtws3 dtws2 transform solver filterFn cfg input =
        Except.ok out1 →
      processOne dtws3 dtws2 transform solver filterFn cfg input =
        Except.ok out2 →
      out1 = out2) ∧
    (∀ (ws : Vol Nat) (pmaps : Vol ℚ) (l : List ((Nat × Nat) × ℚ)),
      l.Perm (contributions ws pmaps) →
      ∀ e, edgeFeature l e = edgeFeature (contributions ws pmaps) e) := by
  constructor
  · intro out1 out2 hr1 hr2
    rw [hr1] at hr2
    exact Except.ok.inj hr2
  · intro ws pmaps l hperm e
    have hp : (l.filter (fun c => decide (c.1 = e))).Perm
        ((contributions ws pmaps).filter (fun c => decide (c.1 = e))) :=
      hperm.filter _
    have hm := hp.map Prod.snd
    simp only [edgeFeature]
    rw [hm.sum_eq, hm.length_eq]

/-- Witness for C6: a successful concrete run compared with itself, and the
edge features of a reversed boundary scan on a three-slice volume. -/
theorem segment_volume_deterministic_witness :
    processOne dtws3C dtws2C transformU solverU filterC cfgC inputH5a =
      Except.ok [[[5]]] ∧
    ([[[5]]] : Vol Nat) = [[[5]]] ∧
    edgeFeature
        ((contributions (wsOf dtws3C dtws2C cfgC pmaps3) pmaps3).reverse)
        (2, 3) =
      edgeFeature (contributions (wsOf dtws3C dtws2C cfgC pmaps3) pmaps3)
        (2, 3) := by
  have h : processOne dtws3C dtws2C transformU solverU filterC cfgC
      inputH5a = Except.ok [[[5]]] := by rfl
  exact ⟨h,
    (segment_volume_deterministic dtws3C dtws2C transformU solverU filterC
      cfgC inputH5a).1 [[[5]]] [[[5]]] h h,
    (segment_volume_deterministic dtws3C dtws2C transformU solverU filterC
      cfgC inputH5a).2 (wsOf dtws3C dtws2C cfgC pmaps3) pmaps3 _
      (List.reverse_perm _) (2, 3)⟩

/-- C8: when a batch aborts because volume k fails, the file system equals
exactly what the successful prefix produced: the failing volume writes
nothing and mutates no output already written for the volumes before it. -/
theorem batch_failure_preserves_prefix_outputs {γ : Type} (dtws3 : DtWs3)
    (dtws2 : DtWs2) (transform : ℚ → Nat → ℚ → γ)
    (solver : Nat → List (Nat × Nat) → List γ → List Nat)
    (filterFn : Vol Nat → Vol ℚ → ℤ → Vol Nat)
    (cfg : MulticutConfig)
    (l1 l2 : List (String × String × InputFile))
    (item : String × String × InputFile) (e : PErr) (fs0 : FS)
    (hpre : ∀ x ∈ l1, ∃ out,
      processOne dtws3 dtws2 transform solver filterFn cfg x.2.2 =
        Except.ok out)
    (hfail : processOne dtws3 dtws2 transform solver filterFn cfg
      item.2.2 = Except.error e) :
    runBatch dtws3 dtws2 transform solver filterFn cfg
        (l1 ++ item :: l2) fs0 =
      ((runBatch dtws3 dtws2 transform solver filterFn cfg l1 fs0).1,
        some e) := by
  revert hpre
  induction l1 generalizing fs0 with
  | nil =>
    intro _
    simp [runBatch, hfail]
  | cons x t ih =>
    intro hpre
    obtain ⟨out, hout⟩ := hpre x (List.mem_cons_self x t)
    simp only [List.cons_append]
    simp only [runBatch, hout]
    exact ih _ (fun y hy => hpre y (List.mem_cons_of_mem x hy))

/-- Witness for C8: a two-item batch whose first volume succeeds and whose
second volume has an unknown extension. -/
theorem batch_failure_preserves_prefix_witness :
    (∀ x ∈ [("d", "a", inputH5a)], ∃ out,
      processOne dtws3C dtws2C transformU solverU filterC cfgC x.2.2 =
        Except.ok out) ∧
    processOne dtws3C dtws2C transformU solverU filterC cfgC
      InputFile.unknownExt = Except.error PErr.notImplemented ∧
    runBatch dtws3C dtws2C transformU solverU filterC cfgC
        ([("d", "a", inputH5a)] ++ ("d", "b", InputFile.unknownExt) :: [])
        [] =
      ((runBatch dtws3C dtws2C transformU solverU filterC cfgC
          [("d", "a", inputH5a)] []).1,
        some PErr.notImplemented) := by
  refine ⟨fun x hx => ?_, rfl,
    batch_failure_preserves_prefix_outputs dtws3C dtws2C transformU solverU
      filterC cfgC [("d", "a", inputH5a)] []
      ("d", "b", InputFile.unknownExt) PErr.notImplemented []
      (fun x hx => ?_) rfl⟩
  all_goals
    rcases List.mem_singleton.mp hx with rfl
    exact ⟨[[[5]]], by rfl⟩

theorem logit_lt_logit {x y : ℝ} (hx0 : 0 < x) (hy1 : y < 1) (hxy : x < y) :
    Real.log (x / (1 - x)) < Real.log (y / (1 - y)) := by
  have hx1 : x < 1 := lt_trans hxy hy1
  have hy0 : 0 < y := lt_trans hx0 hxy
  have h1x : 0 < 1 - x := by linarith
  have h1y : 0 < 1 - y := by linarith
  apply Real.log_lt_log (div_pos hx0 h1x)
  rw [div_lt_div_iff₀ h1x h1y]
  nlinarith

/-- C5: with the cost transform modelled from the spec, an edge whose mean
probability equals beta gets cost 0, above beta a strictly positive cost and
below beta a strictly negative cost, for beta in (0, 1), mean probability in
(0, 1) and boundaryLength ≥ 1. -/
theorem cost_sign_law (p beta : ℚ) (size : Nat)
    (hp0 : 0 < p) (hp1 : p < 1) (hb0 : 0 < beta) (hb1 : beta < 1)
    (hs : 1 ≤ size) :
    (p = beta → transform_probabilities_to_costs p size beta = 0) ∧
    (beta < p → 0 < transform_probabilities_to_costs p size beta) ∧
    (p < beta → transform_probabilities_to_costs p size beta < 0) := by
  have hsize : (0 : ℝ) < (size : ℝ) := by
    exact_mod_cast Nat.lt_of_lt_of_le Nat.zero_lt_one hs
  refine ⟨?_, ?_, ?_⟩
  · rintro rfl
    unfold transform_probabilities_to_costs
    rw [sub_self, mul_zero]
  · intro h
    unfold transform_probabilities_to_costs
    have hl := logit_lt_logit (x := (beta : ℝ)) (y := (p : ℝ))
      (by exact_mod_cast hb0) (by exact_mod_cast hp1) (by exact_mod_cast h)
    exact mul_pos hsize (sub_pos.mpr hl)
  · intro h
    unfold transform_probabilities_to_costs
    have hl := logit_lt_logit (x := (p : ℝ)) (y := (beta : ℝ))
      (by exact_mod_cast hp0) (by exact_mod_cast hb1) (by exact_mod_cast h)
    exact mul_neg_of_pos_of_neg hsize (sub_neg.mpr hl)

/-- Witness for C5 at p = 3/4, beta = 1/2, boundaryLength 1. -/
theorem cost_sign_law_witness :
    (0 : ℚ) < 3 / 4 ∧ (3 / 4 : ℚ) < 1 ∧ (1 / 2 : ℚ) < 3 / 4 ∧
    0 < transform_probabilities_to_costs (3 / 4) 1 (1 / 2) :=
  ⟨by norm_num, by norm_num, by norm_num,
    (cost_sign_law (3 / 4) (1 / 2) 1 (by norm_num) (by norm_num)
      (by norm_num) (by norm_num) (by norm_num)).2.1 (by norm_num)⟩

/-- C1 amended: every output voxel is the node label the solver assigned to
the superpixel of that voxel, with no relabeling afterwards; positivity of
the Final Segmentation therefore holds exactly when the solver labeling is
positive (on a label array covering every superpixel id) and the size filter
introduces no new labels.  The code itself never enforces this. -/
theorem final_labels_positive_of_solver_positive {γ : Type} (dtws3 : DtWs3)
    (dtws2 : DtWs2) (transform : ℚ → Nat → ℚ → γ)
    (solver : Nat → List (Nat × Nat) → List γ → List Nat)
    (filterFn : Vol Nat → Vol ℚ → ℤ → Vol Nat)
    (cfg : MulticutConfig) (pmaps : Vol ℚ)
    (hlen : volMaxLabel (wsOf dtws3 dtws2 cfg pmaps) <
      (labelsOf dtws3 dtws2 transform solver cfg pmaps).length)
    (hpos : ∀ x ∈ labelsOf dtws3 dtws2 transform solver cfg pmaps, 0 < x)
    (hfilter : ∀ s p m, ∀ x ∈ flat3 (filterFn s p m), x ∈ flat3 s) :
    ∀ v ∈ flat3 (finalSegOf dtws3 dtws2 transform solver filterFn cfg
      pmaps), 0 < v := by
  intro v hv
  have hseg : v ∈ flat3 (segment_volume dtws3 dtws2 transform solver cfg
      pmaps) := by
    unfold finalSegOf at hv
    by_cases hif : cfg.ws_minsize < cfg.post_minsize
    · rw [if_pos hif] at hv
      exact hfilter _ _ _ v hv
    · rwa [if_neg hif] at hv
  unfold segment_volume niftyTake at hseg
  rw [flat3_mapVol] at hseg
  obtain ⟨w, hw, rfl⟩ := List.mem_map.mp hseg
  have hwle : w ≤ volMaxLabel (wsOf dtws3 dtws2 cfg pmaps) :=
    le_foldr_max _ _ hw
  have hwlt : w <
      (labelsOf dtws3 dtws2 transform solver cfg pmaps).length :=
    lt_of_le_of_lt hwle hlen
  rw [List.getD_eq_getElem?_getD, List.getElem?_eq_getElem hwlt,
    Option.getD_some]
  exact hpos _ (List.getElem_mem hwlt)

/-- Witness for C1 amended on a concrete volume with an all-positive solver
labeling. -/
theorem final_labels_positive_witness :
    volMaxLabel (wsOf dtws3C dtws2C cfgC pmaps1) <
      (labelsOf dtws3C dtws2C transformU solverU cfgC pmaps1).length ∧
    ∀ v ∈ flat3 (finalSegOf dtws3C dtws2C transformU solverU filterC cfgC
      pmaps1), 0 < v :=
  ⟨by decide,
    final_labels_positive_of_solver_positive dtws3C dtws2C transformU
      solverU filterC cfgC pmaps1 (by decide) (by decide)
      (fun s p m x hx => hx)⟩

/-- C1 counterexample: the claim that every voxel of the Final Segmentation
is positive fails.  On the two-voxel volume pmaps2 with the default
configuration, the single RAG edge has mean probability 1/2 = beta, hence
cost 0, so the all-zero node labeling (the all-merged partition, with the
0-based label ids nifty uses) minimizes the multicut objective; projecting
it yields the all-zero Final Segmentation, whose voxels are not positive,
even though the watershed is well behaved and the size filter adds no
labels. -/
theorem label_zero_counterexample :
    ¬ (∀ (dtws3 : DtWs3) (dtws2 : DtWs2)
        (solver : Nat → List (Nat × Nat) → List ℝ → List Nat)
        (filterFn : Vol Nat → Vol ℚ → ℤ → Vol Nat)
        (cfg : MulticutConfig) (pmaps : Vol ℚ),
        (∀ a b c q, ∀ x ∈ flat3 (dtws3 a b c q), 1 ≤ x) →
        (∀ a b c d s, ∀ x ∈ flat2 (dtws2 a b c d s), 1 ≤ x) →
        (∀ s q m, ∀ x ∈ flat3 (filterFn s q m), x ∈ flat3 s) →
        MinimizesMulticut (edgesOf dtws3 dtws2 cfg pmaps)
          (costsOf dtws3 dtws2 transform_probabilities_to_costs cfg pmaps)
          (labelsOf dtws3 dtws2 transform_probabilities_to_costs solver cfg
            pmaps) →
        ∀ v ∈ flat3 (finalSegOf dtws3 dtws2 transform_probabilities_to_costs
          solver filterFn cfg pmaps), 0 < v) := by
  intro hclaim
  have hA : ∀ a b c q, ∀ x ∈ flat3 (dtws3C a b c q), 1 ≤ x := by
    intro a b c q x hx
    unfold dtws3C at hx
    rw [flat3_mapVol] at hx
    obtain ⟨y, _, rfl⟩ := List.mem_map.mp hx
    exact le_refl 1
  have hB : ∀ a b c d s, ∀ x ∈ flat2 (dtws2C a b c d s), 1 ≤ x := by
    intro a b c d s x hx
    unfold dtws2C at hx
    rw [flat2_map] at hx
    obtain ⟨y, _, rfl⟩ := List.mem_map.mp hx
    exact le_refl 1
  have hC : ∀ s q m, ∀ x ∈ flat3 (filterC s q m), x ∈ flat3 s :=
    fun s q m x hx => hx
  have hedges : edgesOf dtws3C dtws2C cfgC pmaps2 = [(2, 3)] := by decide
  have hcontrib : contributions (wsOf dtws3C dtws2C cfgC pmaps2) pmaps2 =
      [((2, 3), (1 / 2 + 1 / 2) / 2)] := rfl
  have hfeat0 : edgeFeature
      (contributions (wsOf dtws3C dtws2C cfgC pmaps2) pmaps2) (2, 3) =
      (1 / 2, 1) := by
    rw [hcontrib]
    unfold edgeFeature
    norm_num [List.filter]
  have hcosts : costsOf dtws3C dtws2C transform_probabilities_to_costs cfgC
      pmaps2 = [transform_probabilities_to_costs (1 / 2) 1 (1 / 2)] := by
    unfold costsOf
    rw [hedges]
    simp only [List.map_cons, List.map_nil, hfeat0]
    rfl
  have hlab : labelsOf dtws3C dtws2C transform_probabilities_to_costs
      solver0R cfgC pmaps2 = [0, 0, 0, 0] := rfl
  have hczero : transform_probabilities_to_costs (1 / 2) 1 (1 / 2) = 0 := by
    unfold transform_probabilities_to_costs
    rw [sub_self, mul_zero]
  have hcosts0 : costsOf dtws3C dtws2C transform_probabilities_to_costs
      cfgC pmaps2 = [0] := by
    rw [hcosts, hczero]
  have hMin : MinimizesMulticut (edgesOf dtws3C dtws2C cfgC pmaps2)
      (costsOf dtws3C dtws2C transform_probabilities_to_costs cfgC pmaps2)
      (labelsOf dtws3C dtws2C transform_probabilities_to_costs solver0R
        cfgC pmaps2) := by
    unfold MinimizesMulticut
    rw [hedges, hcosts0, hlab]
    intro lab
    unfold multicutObjective
    simp
  have hzero : (0 : Nat) ∈ flat3 (finalSegOf dtws3C dtws2C
      transform_probabilities_to_costs solver0R filterC cfgC pmaps2) := by
    have hfin : finalSegOf dtws3C dtws2C transform_probabilities_to_costs
        solver0R filterC cfgC pmaps2 = [[[0]], [[0]]] := rfl
    rw [hfin]
    simp [flat3]
  exact absurd
    (hclaim dtws3C dtws2C solver0R filterC cfgC pmaps2 hA hB hC hMin 0
      hzero)
    (lt_irrefl 0)

end PlantSeg
